import Mathlib

/-!
Verification of the chunking and rate-limiting core of the llm-rag-play
repository.  The Rust sources `src/chunking.rs` and `src/context.rs` are
shallowly embedded: Rust strings become `List Char` (`Str`), byte offsets are
computed from UTF-8 sizes, and the recursive oversize re-split post-pass of
`split_into_chunks` is modelled with explicit fuel (the Rust recursion has no
structural termination argument).
-/

set_option autoImplicit false

/-- Rust strings, viewed as their sequence of Unicode scalar values. -/
abbrev Str := List Char

/-- Rust `char::is_whitespace`: the Unicode White_Space property. -/
def rustIsWhitespace (c : Char) : Bool :=
  decide ((0x09 ≤ c.toNat ∧ c.toNat ≤ 0x0D) ∨ c.toNat = 0x20 ∨ c.toNat = 0x85 ∨
    c.toNat = 0xA0 ∨ c.toNat = 0x1680 ∨ (0x2000 ≤ c.toNat ∧ c.toNat ≤ 0x200A) ∨
    c.toNat = 0x2028 ∨ c.toNat = 0x2029 ∨ c.toNat = 0x202F ∨ c.toNat = 0x205F ∨
    c.toNat = 0x3000)

/-- Rust `char::is_ascii_punctuation`:
`!..=/ | :..=@ | [..=` | {..=~` (the four ASCII punctuation ranges). -/
def isAsciiPunctuation (c : Char) : Bool :=
  decide ((0x21 ≤ c.toNat ∧ c.toNat ≤ 0x2F) ∨ (0x3A ≤ c.toNat ∧ c.toNat ≤ 0x40) ∨
    (0x5B ≤ c.toNat ∧ c.toNat ≤ 0x60) ∨ (0x7B ≤ c.toNat ∧ c.toNat ≤ 0x7E))

/-- Word counter state machine: counts maximal runs of non-whitespace
characters; `inWord` records whether the previous character was part of a
word.  `wcAux false s` is Rust `s.split_whitespace().count()`. -/
def wcAux : Bool → Str → Nat
  | _, [] => 0
  | inWord, c :: cs =>
    if rustIsWhitespace c then wcAux false cs
    else (if inWord then 0 else 1) + wcAux true cs

/-- Rust `text.split_whitespace().count()`. -/
def wordCount (s : Str) : Nat := wcAux false s

/-- Rust `text.chars().filter(|c| c.is_ascii_punctuation()).count()`. -/
def punctCount (s : Str) : Nat := s.countP isAsciiPunctuation

/-- `estimate_token_count` from `src/chunking.rs`: words plus punctuation. -/
def estimate_token_count (s : Str) : Nat := wordCount s + punctCount s

/-- Rust `str::trim_start`. -/
def trimLeft (s : Str) : Str := s.dropWhile rustIsWhitespace

/-- Rust `str::trim_end`. -/
def trimRight (s : Str) : Str := (s.reverse.dropWhile rustIsWhitespace).reverse

/-- Rust `str::trim` (both ends). -/
def trim (s : Str) : Str := trimRight (trimLeft s)

/-- Rust `text.split("\n\n")`: split at non-overlapping occurrences of a
double newline, scanning left to right; empty fragments are produced. -/
def splitParas : Str → List Str
  | [] => [[]]
  | [c] => [[c]]
  | c1 :: c2 :: rest =>
    if c1 = '\n' ∧ c2 = '\n' then [] :: splitParas rest
    else
      match splitParas (c2 :: rest) with
      | [] => [[c1]]
      | p :: ps => (c1 :: p) :: ps

/-- The sentence delimiters of `split_into_chunks`: `".!?\n".contains(c)`. -/
def isSentenceDelim (c : Char) : Bool :=
  c == '.' || c == '!' || c == '?' || c == '\n'

/-- Rust `paragraph.split(|c| ".!?\n".contains(c))`. -/
def splitSentenceDelims : Str → List Str
  | [] => [[]]
  | c :: rest =>
    if isSentenceDelim c then [] :: splitSentenceDelims rest
    else
      match splitSentenceDelims rest with
      | [] => [[c]]
      | p :: ps => (c :: p) :: ps

/-- Rust `hay.find(&needle)`: byte offset of the first occurrence of `needle`
in `hay` (UTF-8 is self-synchronizing, so every occurrence of a valid needle
starts on a character boundary; the offset is the summed UTF-8 size of the
skipped characters). -/
def byteFind : Str → Str → Option Nat
  | [], needle => if needle.isPrefixOf ([] : Str) then some 0 else none
  | c :: rest, needle =>
    if needle.isPrefixOf (c :: rest) then some 0
    else (byteFind rest needle).map (fun n => c.utf8Size + n)

/-- `TARGET_TOKENS` in `split_into_chunks`. -/
def TARGET_TOKENS : Nat := 500

/-- `OVERLAP_TOKENS` in `split_into_chunks`. -/
def OVERLAP_TOKENS : Nat := 50

/-- The overlap seeding of `split_into_chunks`:
`s[char_indices().nth(chars().count().saturating_sub(OVERLAP_TOKENS*4))..]`.
The byte index returned by `char_indices` is the boundary in front of that
character, so slicing there is dropping that many characters (`unwrap_or(0)`
only fires on the empty string, where dropping `0` coincides). -/
def overlapSuffix (s : Str) : Str := s.drop (s.length - OVERLAP_TOKENS * 4)

/-- `TextChunk` from `src/chunking.rs`. -/
structure TextChunk where
  text : Str
  token_count : Nat
  document_id : Str
  start_position : Nat
deriving DecidableEq, Repr

/-- The sentence-level accumulation loop of `split_into_chunks`
(lines 54-101): walks the sentences of an oversized paragraph, closing the
buffer (with overlap seeding) whenever the next sentence would push it past
`TARGET_TOKENS`.  Returns the chunks pushed, and the final buffer with its
running token count. -/
def sentenceLoop (text doc : Str) : List Str → Str → Nat → List TextChunk × Str × Nat
  | [], buf, cnt => ([], buf, cnt)
  | sRaw :: rest, buf, cnt =>
    let s := trim sRaw
    if s = [] then sentenceLoop text doc rest buf cnt
    else
      let stok := estimate_token_count s
      if TARGET_TOKENS < cnt + stok ∧ buf ≠ [] then
        let seeded := trim (overlapSuffix buf)
        let bufNew := (if seeded ≠ [] then seeded ++ [' '] else seeded) ++ s ++ ['.']
        let res := sentenceLoop text doc rest bufNew (estimate_token_count seeded + stok + 1)
        (⟨buf, cnt, doc, (byteFind text buf).getD 0⟩ :: res.1, res.2)
      else
        let bufNew := (if buf ≠ [] then buf ++ [' '] else buf) ++ s ++ ['.']
        sentenceLoop text doc rest bufNew (cnt + stok + 1)

/-- Lines 47-112 of `split_into_chunks`: sentence mode for one oversized
paragraph, including the final buffer flush (lines 103-112). -/
def sentenceModeChunks (text doc p : Str) : List TextChunk :=
  let sentences := (splitSentenceDelims p).filter (fun s => !(trim s).isEmpty)
  let res := sentenceLoop text doc sentences [] 0
  res.1 ++
    (if res.2.1 = [] then []
     else [⟨res.2.1, res.2.2, doc, (byteFind text res.2.1).getD 0⟩])

/-- Rust `current_chunk.ends_with("\n\n")`. -/
def endsWithNlNl (s : Str) : Bool := List.isPrefixOf ['\n', '\n'] s.reverse

/-- The paragraph loop of `split_into_chunks` (lines 40-154): oversized
paragraphs go through sentence mode, the rest accumulate into
`current_chunk`, closing it (with overlap seeding) when the next paragraph
would push it past `TARGET_TOKENS`. -/
def paragraphLoop (text doc : Str) : List Str → Str → Nat → List TextChunk × Str × Nat
  | [], cur, cnt => ([], cur, cnt)
  | pRaw :: rest, cur, cnt =>
    let p := trim pRaw
    let ptok := estimate_token_count p
    if TARGET_TOKENS < ptok then
      let res := paragraphLoop text doc rest cur cnt
      (sentenceModeChunks text doc p ++ res.1, res.2)
    else if TARGET_TOKENS < cnt + ptok ∧ cur ≠ [] then
      let seeded := trim (overlapSuffix cur)
      let cur1 := if seeded ≠ [] then seeded ++ ['\n', '\n'] else seeded
      let cur2 := if cur1 ≠ [] ∧ endsWithNlNl cur1 = false then cur1 ++ ['\n', '\n'] else cur1
      let res := paragraphLoop text doc rest (cur2 ++ p) (estimate_token_count seeded + ptok)
      (⟨cur, cnt, doc, (byteFind text cur).getD 0⟩ :: res.1, res.2)
    else
      let cur2 := if cur ≠ [] ∧ endsWithNlNl cur = false then cur ++ ['\n', '\n'] else cur
      paragraphLoop text doc rest (cur2 ++ p) (cnt + ptok)

/-- One full pass of `split_into_chunks` before the oversize re-split
post-pass (lines 29-165): paragraph splitting, the accumulation loops, and
the final flush of `current_chunk`. -/
def firstPassChunks (text doc : Str) : List TextChunk :=
  let paragraphs := (splitParas text).filter (fun p => !(trim p).isEmpty)
  let res := paragraphLoop text doc paragraphs [] 0
  res.1 ++
    (if (trim res.2.1).isEmpty then []
     else [⟨res.2.1, res.2.2, doc, (byteFind text res.2.1).getD 0⟩])

/-- The re-stamping of sub-chunks in the post-pass (lines 181-183). -/
def restamp (doc : Str) (c : TextChunk) : TextChunk := { c with document_id := doc }

/-- The oversize re-split post-pass (lines 167-188), abstracted over the
recursive call `f`: chunks with `token_count > TARGET_TOKENS * 3` are
replaced by the re-split of their text, re-stamped with their document id. -/
def resplitWith (f : Str → Str → Option (List TextChunk)) :
    List TextChunk → Option (List TextChunk)
  | [] => some []
  | c :: cs =>
    let headRes :=
      if TARGET_TOKENS * 3 < c.token_count then
        (f c.text c.document_id).map (fun l => l.map (restamp c.document_id))
      else some [c]
    match headRes, resplitWith f cs with
    | some a, some b => some (a ++ b)
    | _, _ => none

/-- `split_into_chunks` from `src/chunking.rs`, with explicit fuel bounding
the depth of the oversize re-split recursion; `none` means the recursion did
not complete within `fuel` levels. -/
def split_into_chunks : Nat → Str → Str → Option (List TextChunk)
  | 0, _, _ => none
  | fuel + 1, text, doc =>
    resplitWith (fun t d => split_into_chunks fuel t d) (firstPassChunks text doc)

/-- Termination of the Rust `split_into_chunks` on a given input: some fuel
suffices for the re-split recursion to bottom out. -/
def SplitTerminates (text doc : Str) : Prop :=
  ∃ fuel cs, split_into_chunks fuel text doc = some cs

/-! ### Basic facts about the token estimator -/

/-- Whether a scan ending after `s` (having started in state `st`) is inside
a word: `st` if `s` is empty, otherwise determined by the last character. -/
def endStateB (st : Bool) (s : Str) : Bool :=
  s.foldl (fun _ c => !rustIsWhitespace c) st

theorem endStateB_nil (st : Bool) : endStateB st [] = st := rfl

theorem endStateB_cons (st : Bool) (c : Char) (s : Str) :
    endStateB st (c :: s) = endStateB (!rustIsWhitespace c) s := rfl

theorem endStateB_append_last (st : Bool) (a : Str) (c : Char) :
    endStateB st (a ++ [c]) = !rustIsWhitespace c := by
  simp [endStateB, List.foldl_append]

theorem wcAux_append (a : Str) : ∀ (b : Str) (st : Bool),
    wcAux st (a ++ b) = wcAux st a + wcAux (endStateB st a) b := by
  induction a with
  | nil => intro b st; simp [wcAux, endStateB]
  | cons c a ih =>
    intro b st
    by_cases h : rustIsWhitespace c
    · simp [wcAux, h, endStateB_cons, ih]
    · simp [wcAux, h, endStateB_cons, ih, Nat.add_assoc]

theorem punctCount_append (a b : Str) :
    punctCount (a ++ b) = punctCount a + punctCount b :=
  List.countP_append _ _ _

theorem wordCount_append_ws (a b : Str) (c : Char)
    (hc : rustIsWhitespace c = true) :
    wordCount (a ++ c :: b) = wordCount a + wordCount b := by
  have h : wcAux (endStateB false a) (c :: b) = wcAux false b := by
    simp [wcAux, hc]
  simp [wordCount, wcAux_append, h]

theorem estimate_append_ws (a b : Str) (c : Char)
    (hws : rustIsWhitespace c = true) (hp : isAsciiPunctuation c = false) :
    estimate_token_count (a ++ c :: b) =
      estimate_token_count a + estimate_token_count b := by
  have : punctCount (a ++ c :: b) = punctCount a + punctCount b := by
    have : punctCount (c :: b) = punctCount b := by
      simp [punctCount, List.countP_cons, hp]
    rw [punctCount_append, this]
  simp [estimate_token_count, wordCount_append_ws a b c hws, this]
  omega

theorem estimate_append_space (a b : Str) :
    estimate_token_count (a ++ ' ' :: b) =
      estimate_token_count a + estimate_token_count b :=
  estimate_append_ws a b ' ' (by decide) (by decide)

theorem estimate_append_nl (a b : Str) :
    estimate_token_count (a ++ '\n' :: b) =
      estimate_token_count a + estimate_token_count b :=
  estimate_append_ws a b '\n' (by decide) (by decide)

theorem estimate_cons_nl (b : Str) :
    estimate_token_count ('\n' :: b) = estimate_token_count b := by
  have h := estimate_append_nl [] b
  simp only [List.nil_append] at h
  rw [h]
  simp [estimate_token_count, wordCount, wcAux, punctCount]

theorem estimate_dot_of_endword (s : Str) (h : endStateB false s = true) :
    estimate_token_count (s ++ ['.']) = estimate_token_count s + 1 := by
  have hw : wordCount (s ++ ['.']) = wordCount s := by
    simp [wordCount, wcAux_append, h, wcAux]
  have hp : punctCount (s ++ ['.']) = punctCount s + 1 := by
    have hdot : isAsciiPunctuation '.' = true := by decide
    simp [punctCount_append, punctCount, List.countP_cons, hdot]
  simp [estimate_token_count, hw, hp]
  omega

/-! ### Facts about trimming -/

/-- The first character (if any) is not whitespace. -/
def headNotWs (s : Str) : Bool :=
  match s with
  | [] => true
  | c :: _ => !rustIsWhitespace c

theorem headNotWs_dropWhile (s : Str) :
    headNotWs (s.dropWhile rustIsWhitespace) = true := by
  induction s with
  | nil => rfl
  | cons c cs ih =>
    by_cases h : rustIsWhitespace c
    · rw [List.dropWhile_cons, if_pos h]; exact ih
    · rw [List.dropWhile_cons, if_neg (by simp [h])]; simp [headNotWs, h]

theorem headNotWs_append (a b : Str) (ha : a ≠ []) :
    headNotWs (a ++ b) = headNotWs a := by
  cases a with
  | nil => exact absurd rfl ha
  | cons c cs => rfl

theorem trimRight_concat (a : Str) (c : Char) :
    trimRight (a ++ [c]) =
      if rustIsWhitespace c then trimRight a else a ++ [c] := by
  by_cases h : rustIsWhitespace c <;>
    simp [trimRight, List.reverse_append, List.dropWhile, h]

theorem headNotWs_trimRight (s : Str) (h : headNotWs s = true) :
    headNotWs (trimRight s) = true := by
  induction s using List.reverseRecOn with
  | nil => rfl
  | append_singleton a c ih =>
    rw [trimRight_concat]
    by_cases hc : rustIsWhitespace c
    · simp only [hc, if_true]
      cases a with
      | nil => exact ih rfl
      | cons d ds => exact ih (by rw [headNotWs_append _ _ (by simp)] at h; exact h)
    · simp [hc, h]

theorem headNotWs_trim (s : Str) : headNotWs (trim s) = true :=
  headNotWs_trimRight _ (headNotWs_dropWhile s)

theorem headNotWs_reverse_trim (s : Str) :
    headNotWs (trim s).reverse = true := by
  have : (trim s).reverse = (trimLeft s).reverse.dropWhile rustIsWhitespace := by
    simp [trim, trimRight]
  rw [this]
  exact headNotWs_dropWhile _

theorem trim_eq_self (s : Str) (h1 : headNotWs s = true)
    (h2 : headNotWs s.reverse = true) : trim s = s := by
  have hl : trimLeft s = s := by
    cases s with
    | nil => rfl
    | cons c cs =>
      simp only [headNotWs] at h1
      have h1' : rustIsWhitespace c = false := by simpa using h1
      simp [trimLeft, List.dropWhile, h1']
  have hr : trimRight s = s := by
    rcases hrev : s.reverse with _ | ⟨c, cs⟩
    · have : s = [] := by simpa using congrArg List.reverse hrev
      simp [this, trimRight]
    · rw [hrev] at h2
      simp only [headNotWs] at h2
      have h2' : rustIsWhitespace c = false := by simpa using h2
      have : s.reverse.dropWhile rustIsWhitespace = s.reverse := by
        rw [hrev]; simp [List.dropWhile, h2']
      simp [trimRight, this]
  rw [trim, hl, hr]

theorem endStateB_of_ne_nil (s : Str) (st : Bool) (h : s ≠ []) :
    endStateB st s = headNotWs s.reverse := by
  rcases List.eq_nil_or_concat s with rfl | ⟨a, c, rfl⟩
  · exact absurd rfl h
  · rw [List.concat_eq_append, endStateB_append_last, List.reverse_append]
    rfl

theorem endStateB_trim (x : Str) (st : Bool) (h : trim x ≠ []) :
    endStateB st (trim x) = true := by
  rw [endStateB_of_ne_nil _ _ h]
  exact headNotWs_reverse_trim x

theorem trim_idem (x : Str) : trim (trim x) = trim x :=
  trim_eq_self _ (headNotWs_trim x) (headNotWs_reverse_trim x)

theorem wordCount_eq_zero_iff (s : Str) :
    wordCount s = 0 ↔ ∀ c ∈ s, rustIsWhitespace c = true := by
  induction s with
  | nil => simp [wordCount, wcAux]
  | cons c cs ih =>
    by_cases h : rustIsWhitespace c
    · simpa [wordCount, wcAux, h] using ih
    · simp [wordCount, wcAux, h]

theorem punctCount_eq_zero_iff (s : Str) :
    punctCount s = 0 ↔ ∀ c ∈ s, isAsciiPunctuation c = false := by
  simp [punctCount, List.countP_eq_zero]

/-- Claim C5: `estimate_token_count` equals the number of
whitespace-delimited words plus the number of ASCII punctuation characters;
it is non-negative; it is zero exactly when the text has no
whitespace-delimited word (all characters are whitespace) and no ASCII
punctuation character; and the empty string yields `0`. -/
theorem claim_c5_estimate_token_count (s : Str) :
    estimate_token_count s = wordCount s + punctCount s ∧
    0 ≤ estimate_token_count s ∧
    (estimate_token_count s = 0 ↔
      (∀ c ∈ s, rustIsWhitespace c = true) ∧
      (∀ c ∈ s, isAsciiPunctuation c = false)) ∧
    estimate_token_count [] = 0 := by
  refine ⟨rfl, Nat.zero_le _, ?_, rfl⟩
  rw [← wordCount_eq_zero_iff, ← punctCount_eq_zero_iff]
  simp [estimate_token_count]

/-! ### Invariants of the splitting loops -/

/-- The properties every chunk pushed by a pass of `split_into_chunks` over
`text`/`doc` enjoys. -/
def GoodChunk (text doc : Str) (c : TextChunk) : Prop :=
  c.document_id = doc ∧
  c.start_position = (byteFind text c.text).getD 0 ∧
  c.token_count = estimate_token_count c.text ∧
  c.text ≠ [] ∧
  headNotWs c.text = true ∧
  headNotWs c.text.reverse = true

/-- Invariant of the accumulation buffers: empty, or trimmed at both ends. -/
def BufOk (buf : Str) : Prop :=
  buf = [] ∨ (headNotWs buf = true ∧ headNotWs buf.reverse = true)

/-- Invariant of a loop result: all pushed chunks are good, and the residual
buffer is trimmed with an accurate token count. -/
def LoopInv (text doc : Str) (r : List TextChunk × Str × Nat) : Prop :=
  (∀ c ∈ r.1, GoodChunk text doc c) ∧ BufOk r.2.1 ∧
    r.2.2 = estimate_token_count r.2.1

theorem headNotWs_reverse_concat (a : Str) (c : Char) :
    headNotWs (a ++ [c]).reverse = !rustIsWhitespace c := by
  simp [List.reverse_append, headNotWs]

theorem estimate_nil : estimate_token_count [] = 0 := rfl

theorem sentence_step_est (B s : Str) (hsne : s ≠ [])
    (hsrev : headNotWs s.reverse = true) :
    estimate_token_count ((if B ≠ [] then B ++ [' '] else B) ++ s ++ ['.']) =
      estimate_token_count B + estimate_token_count s + 1 := by
  have hEnd : endStateB false ((if B ≠ [] then B ++ [' '] else B) ++ s) = true := by
    rw [endStateB_of_ne_nil _ _ (by simp [hsne]), List.reverse_append,
      headNotWs_append _ _ (by simp [hsne])]
    exact hsrev
  rw [estimate_dot_of_endword _ hEnd]
  by_cases hbe : B = []
  · rw [if_neg (by simp [hbe]), hbe]
    simp only [List.nil_append, estimate_nil]
    omega
  · rw [if_pos hbe, List.append_assoc, List.singleton_append,
      estimate_append_space]

theorem sentence_step_head (B s : Str) (hs : headNotWs s = true) (hsne : s ≠ [])
    (hB : B = [] ∨ headNotWs B = true) :
    headNotWs ((if B ≠ [] then B ++ [' '] else B) ++ s ++ ['.']) = true := by
  rw [headNotWs_append _ _ (by simp [hsne] : (if B ≠ [] then B ++ [' '] else B) ++ s ≠ [])]
  by_cases hbe : B = []
  · rw [if_neg (by simp [hbe]), hbe]
    simpa using hs
  · rw [if_pos hbe, headNotWs_append _ _ (by simp [hbe] : B ++ [' '] ≠ []),
      headNotWs_append _ _ hbe]
    rcases hB with rfl | h
    · exact absurd rfl hbe
    · exact h

theorem sentence_step_rev (B s : Str) :
    headNotWs (((if B ≠ [] then B ++ [' '] else B) ++ s ++ ['.']).reverse) = true := by
  rw [headNotWs_reverse_concat]
  decide

theorem sentenceLoop_inv (text doc : Str) (l : List Str) :
    ∀ (buf : Str) (cnt : Nat), BufOk buf → cnt = estimate_token_count buf →
      LoopInv text doc (sentenceLoop text doc l buf cnt) := by
  induction l with
  | nil =>
    intro buf cnt hb hc
    refine ⟨?_, hb, hc⟩
    intro c hc'
    cases hc'
  | cons sRaw rest ih =>
    intro buf cnt hb hc
    rw [sentenceLoop]
    by_cases h1 : trim sRaw = []
    · simp only [h1, if_pos]
      exact ih buf cnt hb hc
    · simp only [if_neg h1]
      have hsHead : headNotWs (trim sRaw) = true := headNotWs_trim _
      have hsRev : headNotWs (trim sRaw).reverse = true := headNotWs_reverse_trim _
      by_cases h2 : TARGET_TOKENS < cnt + estimate_token_count (trim sRaw) ∧ buf ≠ []
      · simp only [if_pos h2]
        have hseedOk : trim (overlapSuffix buf) = [] ∨
            headNotWs (trim (overlapSuffix buf)) = true :=
          Or.imp_right (fun _ => headNotWs_trim _) (em _)
        have hrec := ih _ _
          (Or.inr ⟨sentence_step_head (trim (overlapSuffix buf)) (trim sRaw)
              hsHead h1 hseedOk,
            sentence_step_rev (trim (overlapSuffix buf)) (trim sRaw)⟩)
          (sentence_step_est (trim (overlapSuffix buf)) (trim sRaw) h1 hsRev).symm
        refine ⟨?_, hrec.2.1, hrec.2.2⟩
        intro c hmem
        rcases List.mem_cons.mp hmem with rfl | hmem'
        · rcases hb with rfl | hgood
          · exact absurd rfl h2.2
          · exact ⟨rfl, rfl, hc, h2.2, hgood.1, hgood.2⟩
        · exact hrec.1 c hmem'
      · simp only [if_neg h2]
        have hbOk : buf = [] ∨ headNotWs buf = true :=
          Or.imp_right And.left hb
        refine ih _ _
          (Or.inr ⟨sentence_step_head buf (trim sRaw) hsHead h1 hbOk,
            sentence_step_rev buf (trim sRaw)⟩) ?_
        rw [sentence_step_est buf (trim sRaw) h1 hsRev, hc]

theorem sentenceModeChunks_good (text doc p : Str) :
    ∀ c ∈ sentenceModeChunks text doc p, GoodChunk text doc c := by
  intro c hmem
  rw [sentenceModeChunks] at hmem
  have hinv := sentenceLoop_inv text doc
    ((splitSentenceDelims p).filter (fun s => !(trim s).isEmpty)) [] 0
    (Or.inl rfl) rfl
  rcases List.mem_append.mp hmem with hmem' | hmem'
  · exact hinv.1 c hmem'
  · by_cases hres : (sentenceLoop text doc
        ((splitSentenceDelims p).filter (fun s => !(trim s).isEmpty)) [] 0).2.1 = []
    · rw [if_pos hres] at hmem'
      cases hmem'
    · rw [if_neg hres] at hmem'
      rcases List.mem_singleton.mp hmem' with rfl
      rcases hinv.2.1 with hnil | hok
      · exact absurd hnil hres
      · exact ⟨rfl, rfl, hinv.2.2, hres, hok.1, hok.2⟩

theorem estimate_nl_single : estimate_token_count ['\n'] = 0 := by decide

theorem endsWithNlNl_concat (S : Str) :
    endsWithNlNl (S ++ ['\n', '\n']) = true := by
  simp [endsWithNlNl, List.reverse_append, List.isPrefixOf]

theorem endsWithNlNl_false_of_trimmed (x : Str) (hx : x ≠ [])
    (h : headNotWs x.reverse = true) : endsWithNlNl x = false := by
  rcases hrev : x.reverse with _ | ⟨c, cs⟩
  · exact absurd (by simpa using congrArg List.reverse hrev) hx
  · rw [hrev] at h
    have hc : c ≠ '\n' := by
      intro rfl_eq
      rw [rfl_eq] at h
      simp [headNotWs] at h
      exact absurd h (by decide)
    rw [endsWithNlNl, hrev]
    simp [List.isPrefixOf, hc.symm]

/-- In both paragraph-accumulation branches the buffer extension collapses to
the same shape: append a blank-line separator exactly when the buffer is
non-empty, then the paragraph. -/
theorem para_sep_est (S p : Str) :
    estimate_token_count ((if S ≠ [] then S ++ ['\n', '\n'] else S) ++ p) =
      estimate_token_count S + estimate_token_count p := by
  by_cases hS : S = []
  · rw [if_neg (by simp [hS]), hS]
    simp [estimate_nil]
  · rw [if_pos hS, List.append_assoc]
    have : (['\n', '\n'] : Str) ++ p = '\n' :: ('\n' :: p) := rfl
    rw [this, estimate_append_nl, estimate_cons_nl]

theorem para_sep_head (S p : Str) (hp : headNotWs p = true) (hpne : p ≠ [])
    (hS : S = [] ∨ headNotWs S = true) :
    headNotWs ((if S ≠ [] then S ++ ['\n', '\n'] else S) ++ p) = true := by
  by_cases hSe : S = []
  · rw [if_neg (by simp [hSe]), hSe]
    simpa using hp
  · rw [if_pos hSe, headNotWs_append _ _ (by simp [hSe] : S ++ ['\n', '\n'] ≠ []),
      headNotWs_append _ _ hSe]
    rcases hS with rfl | h
    · exact absurd rfl hSe
    · exact h

theorem para_sep_rev (S p : Str) (hp : headNotWs p.reverse = true) (hpne : p ≠ []) :
    headNotWs (((if S ≠ [] then S ++ ['\n', '\n'] else S) ++ p).reverse) = true := by
  rw [List.reverse_append, headNotWs_append _ _ (by simp [hpne])]
  exact hp

/-- The `ends_with("\n\n")` guard of line 148 collapses on the seeded buffer
of lines 139-144: it already ends with a blank line (or is empty). -/
theorem para_guard_collapse_seeded (S : Str) :
    (if (if S ≠ [] then S ++ ['\n', '\n'] else S) ≠ [] ∧
        endsWithNlNl (if S ≠ [] then S ++ ['\n', '\n'] else S) = false
      then (if S ≠ [] then S ++ ['\n', '\n'] else S) ++ ['\n', '\n']
      else (if S ≠ [] then S ++ ['\n', '\n'] else S)) =
      (if S ≠ [] then S ++ ['\n', '\n'] else S) := by
  by_cases hS : S = []
  · simp [hS]
  · have hcond : ¬((S ++ ['\n', '\n'] ≠ []) ∧
        endsWithNlNl (S ++ ['\n', '\n']) = false) := by
      simp [endsWithNlNl_concat]
    rw [if_pos hS, if_neg hcond]

/-- The `ends_with("\n\n")` guard of line 148 on a trimmed buffer: the
separator is appended exactly when the buffer is non-empty. -/
theorem para_guard_collapse_trimmed (S : Str) (hS : BufOk S) :
    (if S ≠ [] ∧ endsWithNlNl S = false then S ++ ['\n', '\n'] else S) =
      (if S ≠ [] then S ++ ['\n', '\n'] else S) := by
  by_cases hSe : S = []
  · simp [hSe]
  · rcases hS with rfl | hok
    · exact absurd rfl hSe
    · rw [if_pos (⟨hSe, endsWithNlNl_false_of_trimmed S hSe hok.2⟩), if_pos hSe]

theorem paragraphLoop_inv (text doc : Str) (l : List Str)
    (hl : ∀ q ∈ l, trim q ≠ []) :
    ∀ (cur : Str) (cnt : Nat), BufOk cur → cnt = estimate_token_count cur →
      LoopInv text doc (paragraphLoop text doc l cur cnt) := by
  induction l with
  | nil =>
    intro cur cnt hb hc
    refine ⟨?_, hb, hc⟩
    intro c hc'
    cases hc'
  | cons pRaw rest ih =>
    intro cur cnt hb hc
    have hpne : trim pRaw ≠ [] := hl pRaw (List.mem_cons_self _ _)
    have hrestl : ∀ q ∈ rest, trim q ≠ [] := fun q hq => hl q (List.mem_cons_of_mem _ hq)
    have hpHead : headNotWs (trim pRaw) = true := headNotWs_trim _
    have hpRev : headNotWs (trim pRaw).reverse = true := headNotWs_reverse_trim _
    rw [paragraphLoop]
    by_cases h1 : TARGET_TOKENS < estimate_token_count (trim pRaw)
    · simp only [if_pos h1]
      have hrec := ih hrestl cur cnt hb hc
      refine ⟨?_, hrec.2.1, hrec.2.2⟩
      intro c hmem
      rcases List.mem_append.mp hmem with h | h
      · exact sentenceModeChunks_good text doc (trim pRaw) c h
      · exact hrec.1 c h
    · simp only [if_neg h1]
      by_cases h2 : TARGET_TOKENS < cnt + estimate_token_count (trim pRaw) ∧ cur ≠ []
      · simp only [if_pos h2]
        rw [para_guard_collapse_seeded]
        have hSOk : trim (overlapSuffix cur) = [] ∨
            headNotWs (trim (overlapSuffix cur)) = true :=
          Or.imp_right (fun _ => headNotWs_trim _) (em _)
        have hrec := ih hrestl _ _
          (Or.inr ⟨para_sep_head (trim (overlapSuffix cur)) (trim pRaw)
              hpHead hpne hSOk,
            para_sep_rev (trim (overlapSuffix cur)) (trim pRaw) hpRev hpne⟩)
          (para_sep_est (trim (overlapSuffix cur)) (trim pRaw)).symm
        refine ⟨?_, hrec.2.1, hrec.2.2⟩
        intro c hmem
        rcases List.mem_cons.mp hmem with rfl | hmem'
        · rcases hb with rfl | hgood
          · exact absurd rfl h2.2
          · exact ⟨rfl, rfl, hc, h2.2, hgood.1, hgood.2⟩
        · exact hrec.1 c hmem'
      · simp only [if_neg h2]
        rw [para_guard_collapse_trimmed cur hb]
        have hbOk : cur = [] ∨ headNotWs cur = true := Or.imp_right And.left hb
        refine ih hrestl _ _
          (Or.inr ⟨para_sep_head cur (trim pRaw) hpHead hpne hbOk,
            para_sep_rev cur (trim pRaw) hpRev hpne⟩) ?_
        rw [para_sep_est, hc]

theorem firstPassChunks_good (text doc : Str) :
    ∀ c ∈ firstPassChunks text doc, GoodChunk text doc c := by
  intro c hmem
  rw [firstPassChunks] at hmem
  have hl : ∀ q ∈ (splitParas text).filter (fun p => !(trim p).isEmpty),
      trim q ≠ [] := by
    intro q hq
    have := (List.mem_filter.mp hq).2
    simpa using this
  have hinv := paragraphLoop_inv text doc _ hl [] 0 (Or.inl rfl) rfl
  rcases List.mem_append.mp hmem with hmem' | hmem'
  · exact hinv.1 c hmem'
  · by_cases hres : (trim (paragraphLoop text doc
        ((splitParas text).filter (fun p => !(trim p).isEmpty)) [] 0).2.1).isEmpty
    · rw [if_pos hres] at hmem'
      cases hmem'
    · rw [if_neg hres] at hmem'
      rcases List.mem_singleton.mp hmem' with rfl
      have hne : (paragraphLoop text doc
          ((splitParas text).filter (fun p => !(trim p).isEmpty)) [] 0).2.1 ≠ [] := by
        intro hnil
        rw [hnil] at hres
        exact hres rfl
      rcases hinv.2.1 with hnil | hok
      · exact absurd hnil hne
      · exact ⟨rfl, rfl, hinv.2.2, hne, hok.1, hok.2⟩

/-! ### The oversize re-split post-pass -/

theorem resplitWith_sound (f : Str → Str → Option (List TextChunk))
    (l : List TextChunk) (cs : List TextChunk)
    (h : resplitWith f l = some cs) :
    ∀ c ∈ cs,
      (∃ a ∈ l, ¬(TARGET_TOKENS * 3 < a.token_count) ∧ c = a) ∨
      (∃ a ∈ l, TARGET_TOKENS * 3 < a.token_count ∧
        ∃ cs', f a.text a.document_id = some cs' ∧
          ∃ c' ∈ cs', c = restamp a.document_id c') := by
  induction l generalizing cs with
  | nil =>
    rw [resplitWith] at h
    rcases Option.some.inj h with rfl
    intro c hc
    cases hc
  | cons a l ih =>
    rw [resplitWith] at h
    by_cases ha : TARGET_TOKENS * 3 < a.token_count
    · simp only [if_pos ha] at h
      rcases hf : f a.text a.document_id with _ | cs'
      · rw [hf] at h
        simp at h
      · rw [hf] at h
        simp only [Option.map_some'] at h
        rcases hrest : resplitWith f l with _ | bs
        · rw [hrest] at h
          cases h
        · rw [hrest] at h
          rcases Option.some.inj h with rfl
          intro c hc
          rcases List.mem_append.mp hc with hc' | hc'
          · rcases List.mem_map.mp hc' with ⟨c', hc'', rfl⟩
            exact Or.inr ⟨a, List.mem_cons_self _ _, ha, cs', hf, c', hc'', rfl⟩
          · rcases ih bs hrest c hc' with ⟨b, hb, hb2, hb3⟩ | ⟨b, hb, hb2, hb3⟩
            · exact Or.inl ⟨b, List.mem_cons_of_mem _ hb, hb2, hb3⟩
            · exact Or.inr ⟨b, List.mem_cons_of_mem _ hb, hb2, hb3⟩
    · simp only [if_neg ha] at h
      rcases hrest : resplitWith f l with _ | bs
      · rw [hrest] at h
        cases h
      · rw [hrest] at h
        rcases Option.some.inj h with rfl
        intro c hc
        rcases List.mem_append.mp hc with hc' | hc'
        · rcases List.mem_singleton.mp hc' with rfl
          exact Or.inl ⟨c, List.mem_cons_self _ _, ha, rfl⟩
        · rcases ih bs hrest c hc' with ⟨b, hb, hb2, hb3⟩ | ⟨b, hb, hb2, hb3⟩
          · exact Or.inl ⟨b, List.mem_cons_of_mem _ hb, hb2, hb3⟩
          · exact Or.inr ⟨b, List.mem_cons_of_mem _ hb, hb2, hb3⟩

/-- Soundness of the full splitter: every chunk of a completed run carries
the input document id, an accurate token count at most `3 * TARGET_TOKENS`,
and non-empty text trimmed at both ends. -/
theorem split_into_chunks_sound :
    ∀ (fuel : Nat) (text doc : Str) (cs : List TextChunk),
      split_into_chunks fuel text doc = some cs →
      ∀ c ∈ cs,
        c.document_id = doc ∧
        c.token_count = estimate_token_count c.text ∧
        c.token_count ≤ TARGET_TOKENS * 3 ∧
        c.text ≠ [] ∧
        headNotWs c.text = true ∧
        headNotWs c.text.reverse = true := by
  intro fuel
  induction fuel with
  | zero =>
    intro text doc cs h
    cases h
  | succ fuel ih =>
    intro text doc cs h c hc
    rw [split_into_chunks] at h
    rcases resplitWith_sound _ _ _ h c hc with
      ⟨a, ha, hsmall, hceq⟩ | ⟨a, ha, _, cs', hf, c', hc', hceq⟩
    · subst hceq
      have hg := firstPassChunks_good text doc c ha
      exact ⟨hg.1, hg.2.2.1, by omega, hg.2.2.2.1, hg.2.2.2.2.1, hg.2.2.2.2.2⟩
    · subst hceq
      have hg := firstPassChunks_good text doc a ha
      have hrec := ih a.text a.document_id cs' hf c' hc'
      exact ⟨by simp [restamp, hg.1], by simpa [restamp] using hrec.2.1,
        by simpa [restamp] using hrec.2.2.1, by simpa [restamp] using hrec.2.2.2.1,
        by simpa [restamp] using hrec.2.2.2.2.1,
        by simpa [restamp] using hrec.2.2.2.2.2⟩

/-! ### Claims about the splitter -/

/-- Claim C2: no chunk in a completed run of `split_into_chunks` has
`token_count` greater than `3 * TARGET_TOKENS`.  This is stronger than the
claim as stated: the documented "single oversized atomic sentence" exception
never materialises in a returned sequence, because such a chunk is fed back
into the re-split recursion instead of being returned. -/
theorem claim_c2_token_bound (fuel : Nat) (text doc : Str) (cs : List TextChunk)
    (h : split_into_chunks fuel text doc = some cs) :
    ∀ c ∈ cs, c.token_count ≤ TARGET_TOKENS * 3 :=
  fun c hc => (split_into_chunks_sound fuel text doc cs h c hc).2.2.1

theorem claim_c2_witness :
    split_into_chunks 1 "hello".data "doc".data =
      some [⟨"hello".data, 1, "doc".data, 0⟩] ∧
    (⟨"hello".data, 1, "doc".data, 0⟩ : TextChunk).token_count ≤ TARGET_TOKENS * 3 :=
  ⟨by decide, claim_c2_token_bound 1 "hello".data "doc".data
    [⟨"hello".data, 1, "doc".data, 0⟩] (by decide) _ (by decide)⟩

/-- Claim C4: every chunk returned by `split_into_chunks` has `token_count`
equal to `estimate_token_count` of its final text. -/
theorem claim_c4_token_count_accurate (fuel : Nat) (text doc : Str)
    (cs : List TextChunk) (h : split_into_chunks fuel text doc = some cs) :
    ∀ c ∈ cs, c.token_count = estimate_token_count c.text :=
  fun c hc => (split_into_chunks_sound fuel text doc cs h c hc).2.1

theorem claim_c4_witness :
    split_into_chunks 1 "hello".data "doc".data =
      some [⟨"hello".data, 1, "doc".data, 0⟩] ∧
    (⟨"hello".data, 1, "doc".data, 0⟩ : TextChunk).token_count =
      estimate_token_count ("hello".data) :=
  ⟨by decide, claim_c4_token_count_accurate 1 "hello".data "doc".data
    [⟨"hello".data, 1, "doc".data, 0⟩] (by decide) _ (by decide)⟩

/-- Claim C7: every chunk returned by `split_into_chunks`, including
sub-chunks produced by recursive re-splitting, carries the input
document id. -/
theorem claim_c7_document_id (fuel : Nat) (text doc : Str)
    (cs : List TextChunk) (h : split_into_chunks fuel text doc = some cs) :
    ∀ c ∈ cs, c.document_id = doc :=
  fun c hc => (split_into_chunks_sound fuel text doc cs h c hc).1

theorem claim_c7_witness :
    split_into_chunks 1 "hello".data "doc".data =
      some [⟨"hello".data, 1, "doc".data, 0⟩] ∧
    (⟨"hello".data, 1, "doc".data, 0⟩ : TextChunk).document_id = "doc".data :=
  ⟨by decide, claim_c7_document_id 1 "hello".data "doc".data
    [⟨"hello".data, 1, "doc".data, 0⟩] (by decide) _ (by decide)⟩

/-- Claim C9: every chunk returned by `split_into_chunks` has text trimmed
of leading and trailing whitespace: it equals its own trim. -/
theorem claim_c9_trimmed (fuel : Nat) (text doc : Str)
    (cs : List TextChunk) (h : split_into_chunks fuel text doc = some cs) :
    ∀ c ∈ cs, trim c.text = c.text := by
  intro c hc
  have hg := split_into_chunks_sound fuel text doc cs h c hc
  exact trim_eq_self _ hg.2.2.2.2.1 hg.2.2.2.2.2

theorem claim_c9_witness :
    split_into_chunks 1 "hello".data "doc".data =
      some [⟨"hello".data, 1, "doc".data, 0⟩] ∧
    trim ((⟨"hello".data, 1, "doc".data, 0⟩ : TextChunk).text) = "hello".data :=
  ⟨by decide, claim_c9_trimmed 1 "hello".data "doc".data
    [⟨"hello".data, 1, "doc".data, 0⟩] (by decide) _ (by decide)⟩

/-- Claim C10: every chunk returned by `split_into_chunks` has non-empty
text containing at least one non-whitespace character. -/
theorem claim_c10_nonempty (fuel : Nat) (text doc : Str)
    (cs : List TextChunk) (h : split_into_chunks fuel text doc = some cs) :
    ∀ c ∈ cs, c.text ≠ [] ∧ ∃ ch ∈ c.text, rustIsWhitespace ch = false := by
  intro c hc
  have hg := split_into_chunks_sound fuel text doc cs h c hc
  refine ⟨hg.2.2.2.1, ?_⟩
  rcases htext : c.text with _ | ⟨c0, rest⟩
  · exact absurd htext hg.2.2.2.1
  · have hhead := hg.2.2.2.2.1
    rw [htext] at hhead
    simp only [headNotWs] at hhead
    exact ⟨c0, List.mem_cons_self _ _, by simpa using hhead⟩

theorem claim_c10_witness :
    split_into_chunks 1 "hello".data "doc".data =
      some [⟨"hello".data, 1, "doc".data, 0⟩] ∧
    ((⟨"hello".data, 1, "doc".data, 0⟩ : TextChunk).text ≠ [] ∧
      ∃ ch ∈ (⟨"hello".data, 1, "doc".data, 0⟩ : TextChunk).text,
        rustIsWhitespace ch = false) :=
  ⟨by decide, claim_c10_nonempty 1 "hello".data "doc".data
    [⟨"hello".data, 1, "doc".data, 0⟩] (by decide)
    ⟨"hello".data, 1, "doc".data, 0⟩ (by decide)⟩

/-- Claim C6, amended: every chunk pushed by one pass of the splitting
algorithm has `start_position` equal to the byte offset of the first
occurrence of its text in the string passed to that pass (`0` when absent).
For top-level chunks that string is the original input; sub-chunks produced
by the re-split post-pass are positioned by the recursive invocation
relative to the oversized chunk's own text (see `split_into_chunks`), not
the top-level input. -/
theorem claim_c6_amended_start_position (text doc : Str) :
    ∀ c ∈ firstPassChunks text doc,
      c.start_position = (byteFind text c.text).getD 0 :=
  fun c hc => (firstPassChunks_good text doc c hc).2.1

theorem claim_c6_witness :
    firstPassChunks "hello".data "doc".data = [⟨"hello".data, 1, "doc".data, 0⟩] ∧
    (⟨"hello".data, 1, "doc".data, 0⟩ : TextChunk).start_position =
      (byteFind "hello".data "hello".data).getD 0 :=
  ⟨by decide, claim_c6_amended_start_position "hello".data "doc".data
    ⟨"hello".data, 1, "doc".data, 0⟩ (by decide)⟩

/-! ### The rate limiter of `src/context.rs` -/

/-- `RateLimiter` from `src/context.rs`.  `Instant`s are modelled as integer
millisecond timestamps; the two parallel vectors `request_timestamps` and
`token_counts` (always pruned in lockstep at the same indices) are modelled
as one list of pairs. -/
structure RateLimiter where
  max_rpm : Nat
  max_tpm : Nat
  request_log : List (Int × Nat)
deriving DecidableEq, Repr

/-- `RateLimiter::new`. -/
def RateLimiter.new (maxRpm maxTpm : Nat) : RateLimiter :=
  ⟨maxRpm, maxTpm, []⟩

/-- `RateLimiter::check_and_update` from `src/context.rs` (lines 167-232):
times in milliseconds, result is the wait duration in milliseconds together
with the updated limiter state.  The index-based removal loop keeps exactly
the entries with timestamp not below `now` minus sixty seconds, in order. -/
def check_and_update (st : RateLimiter) (now : Int) (token_count : Nat) :
    Nat × RateLimiter :=
  let oneMinuteAgo := now - 60000
  let log := st.request_log.filter (fun e => !decide (e.1 < oneMinuteAgo))
  let current_rpm := log.length
  let current_tpm := (log.map Prod.snd).sum
  if st.max_rpm ≤ current_rpm ∨ st.max_tpm < current_tpm + token_count then
    match log with
    | oldest :: _ =>
      let expiry := oldest.1 + 60000
      let wait := if now < expiry then (expiry - now).toNat else 0
      (wait + 100, { st with request_log := log })
    | [] => (1000, { st with request_log := log })
  else
    (0, { st with request_log := log ++ [(now, token_count)] })

/-- Claim C3: the admit/deny behaviour of `check_and_update`.  After pruning
entries older than sixty seconds, the request is recorded with zero wait
exactly when both the request count and the token budget admit it; otherwise
nothing is recorded and the wait is the time until the oldest logged entry
leaves the window (floored at zero) plus a 100 ms buffer, or a fixed one
second when the pruned log is empty.  Consequently, with
`max_requests_per_window = 2`, three unit-cost calls within one second yield
waits `0`, `0`, and positive. -/
theorem claim_c3_rate_limiter :
    (∀ (st : RateLimiter) (now : Int) (cost : Nat),
      (st.request_log.filter (fun e => !decide (e.1 < now - 60000))).length <
          st.max_rpm ∧
        ((st.request_log.filter
            (fun e => !decide (e.1 < now - 60000))).map Prod.snd).sum + cost ≤
          st.max_tpm →
        check_and_update st now cost =
          (0, { st with request_log :=
            st.request_log.filter (fun e => !decide (e.1 < now - 60000)) ++
              [(now, cost)] })) ∧
    (∀ (st : RateLimiter) (now : Int) (cost : Nat),
      ¬((st.request_log.filter (fun e => !decide (e.1 < now - 60000))).length <
          st.max_rpm ∧
        ((st.request_log.filter
            (fun e => !decide (e.1 < now - 60000))).map Prod.snd).sum + cost ≤
          st.max_tpm) →
        (check_and_update st now cost).2.request_log =
          st.request_log.filter (fun e => !decide (e.1 < now - 60000)) ∧
        (check_and_update st now cost).1 =
          (match st.request_log.filter (fun e => !decide (e.1 < now - 60000)) with
           | [] => 1000
           | oldest :: _ => (max (oldest.1 + 60000 - now) 0).toNat + 100)) ∧
    (∀ t1 t2 t3 : Int, t1 ≤ t2 → t2 ≤ t3 → t3 ≤ t1 + 1000 →
      (check_and_update (RateLimiter.new 2 1000000) t1 1).1 = 0 ∧
      (check_and_update
        (check_and_update (RateLimiter.new 2 1000000) t1 1).2 t2 1).1 = 0 ∧
      0 < (check_and_update
        (check_and_update
          (check_and_update (RateLimiter.new 2 1000000) t1 1).2 t2 1).2 t3 1).1) := by
  have hadm : ∀ (st : RateLimiter) (now : Int) (cost : Nat),
      (st.request_log.filter (fun e => !decide (e.1 < now - 60000))).length <
          st.max_rpm ∧
        ((st.request_log.filter
            (fun e => !decide (e.1 < now - 60000))).map Prod.snd).sum + cost ≤
          st.max_tpm →
        check_and_update st now cost =
          (0, { st with request_log :=
            st.request_log.filter (fun e => !decide (e.1 < now - 60000)) ++
              [(now, cost)] }) := by
    intro st now cost h
    rw [check_and_update]
    rw [if_neg (by omega)]
  have hdeny : ∀ (st : RateLimiter) (now : Int) (cost : Nat),
      ¬((st.request_log.filter (fun e => !decide (e.1 < now - 60000))).length <
          st.max_rpm ∧
        ((st.request_log.filter
            (fun e => !decide (e.1 < now - 60000))).map Prod.snd).sum + cost ≤
          st.max_tpm) →
        (check_and_update st now cost).2.request_log =
          st.request_log.filter (fun e => !decide (e.1 < now - 60000)) ∧
        (check_and_update st now cost).1 =
          (match st.request_log.filter (fun e => !decide (e.1 < now - 60000)) with
           | [] => 1000
           | oldest :: _ => (max (oldest.1 + 60000 - now) 0).toNat + 100) := by
    intro st now cost h
    rw [check_and_update]
    rw [if_pos (by omega)]
    rcases hlog : st.request_log.filter (fun e => !decide (e.1 < now - 60000)) with
      _ | ⟨oldest, rest⟩
    · rw [hlog]
      exact ⟨rfl, rfl⟩
    · rw [hlog]
      refine ⟨rfl, ?_⟩
      simp only
      by_cases hlt : now < oldest.1 + 60000
      · rw [if_pos hlt]
        congr 1
        congr 1
        omega
      · rw [if_neg hlt]
        have : max (oldest.1 + 60000 - now) 0 = 0 := by omega
        rw [this]
        simp
  refine ⟨hadm, hdeny, ?_⟩
  intro t1 t2 t3 h12 h23 h31
  have e1 : check_and_update (RateLimiter.new 2 1000000) t1 1 =
      (0, ⟨2, 1000000, [(t1, 1)]⟩) := by
    rw [hadm _ _ _ (by simp [RateLimiter.new])]
    simp [RateLimiter.new]
  have hkeep2 : ([((t1 : Int), (1 : Nat))].filter
      (fun e => !decide (e.1 < t2 - 60000))) = [(t1, 1)] := by
    simp only [List.filter]
    rw [show (!decide ((t1, (1 : Nat)).1 < t2 - 60000)) = true by
      simp; omega]
  have e2 : check_and_update ⟨2, 1000000, [(t1, 1)]⟩ t2 1 =
      (0, ⟨2, 1000000, [(t1, 1), (t2, 1)]⟩) := by
    rw [hadm _ _ _ (by rw [hkeep2]; simp)]
    simp [hkeep2]
  have hkeep3 : ([((t1 : Int), (1 : Nat)), (t2, 1)].filter
      (fun e => !decide (e.1 < t3 - 60000))) = [(t1, 1), (t2, 1)] := by
    simp only [List.filter]
    rw [show (!decide ((t1, (1 : Nat)).1 < t3 - 60000)) = true by simp; omega,
      show (!decide ((t2, (1 : Nat)).1 < t3 - 60000)) = true by simp; omega]
  have e3 : 0 < (check_and_update ⟨2, 1000000, [(t1, 1), (t2, 1)]⟩ t3 1).1 := by
    rw [(hdeny ⟨2, 1000000, [(t1, 1), (t2, 1)]⟩ t3 1 (by rw [hkeep3]; simp)).2]
    rw [hkeep3]
    simp
  refine ⟨by rw [e1], by simp only [e1]; rw [e2], ?_⟩
  simp only [e1, e2]
  exact e3

theorem claim_c3_witness :
    (check_and_update (RateLimiter.new 2 1000000) 0 1).1 = 0 ∧
    (check_and_update (check_and_update (RateLimiter.new 2 1000000) 0 1).2 0 1).1 = 0 ∧
    0 < (check_and_update (check_and_update
      (check_and_update (RateLimiter.new 2 1000000) 0 1).2 0 1).2 0 1).1 :=
  claim_c3_rate_limiter.2.2 0 0 0 le_rfl le_rfl (by omega)

/-! ### The context enrichment of `src/context.rs` -/

/-- `ContextualizedChunk` from `src/context.rs`. -/
structure ContextualizedChunk where
  original_chunk : TextChunk
  contextualized_text : Str
  token_count : Nat
deriving DecidableEq, Repr

/-- The fixed placeholder prefix used when the source document is empty
(line 43-46 of `src/context.rs`). -/
def standalonePlaceholder : Str :=
  "Context: This is a standalone text excerpt.\n\n".data

/-- The prompt template of `ContextGenerator::generate_context_for_chunk`
(lines 57-61). -/
def contextPromptFor (source_document chunk_text : Str) : Str :=
  "<document>\n".data ++ source_document ++
    "\n</document>\nHere is the chunk we want to situate within the whole document\n<chunk>\n".data ++
    chunk_text ++
    "\n</chunk>\nPlease give a short succinct context to situate this chunk within the overall document for the purposes of improving search retrieval of the chunk. Answer only with the succinct context and nothing else.".data

/-- `ContextGenerator::generate_context_for_chunk` (lines 36-75), abstracted
over the external generation collaborator `generate` (the rate-limited
Gemini call); `none` models a propagated error of that collaborator. -/
def generate_context_for_chunk (generate : Str → Option Str)
    (chunk : TextChunk) (source_document : Str) : Option ContextualizedChunk :=
  if source_document.isEmpty then
    let contextualized_text := standalonePlaceholder ++ chunk.text
    some ⟨chunk, contextualized_text, estimate_token_count contextualized_text⟩
  else
    match generate (contextPromptFor source_document chunk.text) with
    | none => none
    | some context =>
      let contextualized_text :=
        "Context: ".data ++ trim context ++ "\n\n".data ++ chunk.text
      some ⟨chunk, contextualized_text, estimate_token_count contextualized_text⟩

/-- Claim C8: on an empty source document, `generate_context_for_chunk`
succeeds without consulting the external generation collaborator (the result
is the same for every `generate`), and the enriched text is exactly the
fixed placeholder prefix followed by the original chunk text, with the token
count recomputed by `estimate_token_count` on that enriched text. -/
theorem claim_c8_empty_source (generate : Str → Option Str) (chunk : TextChunk) :
    generate_context_for_chunk generate chunk [] =
      some ⟨chunk, standalonePlaceholder ++ chunk.text,
        estimate_token_count (standalonePlaceholder ++ chunk.text)⟩ := rfl

/-! ### Symbolic evaluation toolkit for concrete counterexamples -/

theorem byteFind_isSome_inf (needle : Str) :
    ∀ (hay : Str) (k : Nat), byteFind hay needle = some k → needle <:+: hay := by
  intro hay
  induction hay with
  | nil =>
    intro k h
    rw [byteFind] at h
    by_cases hp : needle.isPrefixOf ([] : Str) = true
    · exact ((List.isPrefixOf_iff_prefix.mp hp).isInfix)
    · rw [if_neg hp] at h
      cases h
  | cons c rest ih =>
    intro k h
    rw [byteFind] at h
    by_cases hp : needle.isPrefixOf (c :: rest) = true
    · exact ((List.isPrefixOf_iff_prefix.mp hp).isInfix)
    · rw [if_neg hp] at h
      rcases hfind : byteFind rest needle with _ | k'
      · rw [hfind] at h
        cases h
      · exact List.infix_cons_iff.mpr (Or.inr (ih k' hfind))

theorem byteFind_none_of_mem_not_mem (hay needle : Str) (x : Char)
    (hx : x ∈ needle) (hnx : x ∉ hay) : byteFind hay needle = none := by
  rcases hfind : byteFind hay needle with _ | k
  · rfl
  · exact absurd ((byteFind_isSome_inf needle hay k hfind).subset hx) hnx

theorem isPrefixOf_self_append (s t : Str) : s.isPrefixOf (s ++ t) = true :=
  List.isPrefixOf_iff_prefix.mpr (List.prefix_append s t)

theorem byteFind_pref (hay needle : Str) (hp : needle.isPrefixOf hay = true) :
    byteFind hay needle = some 0 := by
  cases hay with
  | nil => rw [byteFind, if_pos hp]
  | cons c rest => rw [byteFind, if_pos hp]

theorem byteFind_cons_ne (c : Char) (rest : Str) (n : Char) (ns : Str)
    (hne : (n == c) = false) :
    byteFind (c :: rest) (n :: ns) =
      (byteFind rest (n :: ns)).map (fun k => c.utf8Size + k) := by
  rw [byteFind, if_neg]
  rw [List.isPrefixOf]
  simp [hne]

theorem byteFind_longer (hay needle : Str)
    (h : hay.length < needle.length) : byteFind hay needle = none := by
  rcases hfind : byteFind hay needle with _ | k
  · rfl
  · have := (byteFind_isSome_inf needle hay k hfind).length_le
    omega

/-- `splitParas` on a string with no newline at all is the identity
paragraphisation. -/
theorem splitParas_no_nl : ∀ s : Str, '\n' ∉ s → splitParas s = [s] := by
  intro s
  induction s with
  | nil => intro _; rfl
  | cons c1 rest ih =>
    intro h
    cases rest with
    | nil => rfl
    | cons c2 rest2 =>
      rw [splitParas, if_neg (by intro hc; exact h (by simp [hc.1]))]
      rw [ih (by intro hmem; exact h (List.mem_cons_of_mem _ hmem))]

/-- `split` on the sentence delimiters of a delimiter-free string. -/
theorem splitSentenceDelims_no_delim :
    ∀ s : Str, (∀ c ∈ s, isSentenceDelim c = false) →
      splitSentenceDelims s = [s] := by
  intro s
  induction s with
  | nil => intro _; rfl
  | cons c rest ih =>
    intro h
    rw [splitSentenceDelims, if_neg (by simp [h c (List.mem_cons_self _ _)])]
    rw [ih (fun x hx => h x (List.mem_cons_of_mem _ hx))]

/-- `split` on the sentence delimiters: a delimiter-free prefix before a
delimiter becomes the first fragment. -/
theorem splitSentenceDelims_append_delim :
    ∀ (s : Str), (∀ c ∈ s, isSentenceDelim c = false) →
      ∀ (d : Char), isSentenceDelim d = true → ∀ (rest : Str),
        splitSentenceDelims (s ++ d :: rest) =
          s :: splitSentenceDelims rest := by
  intro s
  induction s with
  | nil =>
    intro _ d hd rest
    simp only [List.nil_append]
    rw [splitSentenceDelims, if_pos hd]
  | cons c cs ih =>
    intro h d hd rest
    simp only [List.cons_append]
    rw [splitSentenceDelims, if_neg (by simp [h c (List.mem_cons_self _ _)])]
    rw [ih (fun x hx => h x (List.mem_cons_of_mem _ hx)) d hd rest]

theorem wcAux_true_replicate (n : Nat) (ch : Char)
    (h : rustIsWhitespace ch = false) :
    wcAux true (List.replicate n ch) = 0 := by
  induction n with
  | zero => rfl
  | succ n ih => rw [List.replicate_succ, wcAux, if_neg (by simp [h])]; simp [ih]

theorem endStateB_replicate_succ (st : Bool) (n : Nat) (ch : Char) :
    endStateB st (List.replicate (n + 1) ch) = !rustIsWhitespace ch := by
  rw [List.replicate_succ', endStateB_append_last]

theorem punctCount_replicate_comma (n : Nat) :
    punctCount (List.replicate n ',') = n := by
  rw [punctCount, List.countP_replicate, if_pos (by decide)]

/-- The two strings of the non-termination counterexample: `c1base` is a
single 1500-token "sentence" with no sentence delimiter; `c1fix` is the
oversized chunk built from it, which re-splits to itself forever. -/
def c1base : Str := 'a' :: 'b' :: List.replicate 1499 ','

def c1fix : Str := 'a' :: 'b' :: (List.replicate 1499 ',' ++ ['.'])

theorem c1fix_eq : c1fix = c1base ++ ['.'] := by
  rw [c1fix, c1base]
  simp only [List.cons_append]

theorem c1_est_base : estimate_token_count c1base = 1500 := by
  rw [c1base, estimate_token_count, wordCount, wcAux, if_neg (by decide),
    wcAux, if_neg (by decide)]
  rw [wcAux_true_replicate 1499 ',' (by decide)]
  have h1 : isAsciiPunctuation 'a' = false := by decide
  have h2 : isAsciiPunctuation 'b' = false := by decide
  rw [punctCount, List.countP_cons, List.countP_cons, List.countP_replicate]
  simp only [h1, h2, if_pos (by decide : isAsciiPunctuation ',' = true)]
  rw [if_neg (by decide : ¬rustIsWhitespace 'b' = true)]
  norm_num

theorem c1_est_fix : estimate_token_count c1fix = 1501 := by
  rw [c1fix_eq, estimate_dot_of_endword, c1_est_base]
  rw [c1base, endStateB_cons, endStateB_cons, endStateB_replicate_succ]
  decide

theorem c1_trim_base : trim c1base = c1base := by
  apply trim_eq_self
  · rw [c1base]; decide
  · rw [c1base]
    have : ('a' : Char) :: 'b' :: List.replicate 1499 ',' =
        ('a' :: 'b' :: List.replicate 1498 ',') ++ [','] := by
      rw [show (1499 : Nat) = 1498 + 1 by norm_num, List.replicate_succ']
      simp only [List.cons_append]
    rw [this, headNotWs_reverse_concat]
    decide

theorem c1_trim_fix : trim c1fix = c1fix := by
  apply trim_eq_self
  · rw [c1fix]; decide
  · rw [c1fix_eq, headNotWs_reverse_concat]
    decide

theorem c1_no_delim : ∀ c ∈ c1base, isSentenceDelim c = false := by
  intro c hc
  rw [c1base] at hc
  rw [List.mem_cons, List.mem_cons] at hc
  rcases hc with rfl | rfl | hc
  · decide
  · decide
  · rw [List.eq_of_mem_replicate hc]
    decide

theorem c1_no_nl_base : '\n' ∉ c1base := by
  intro h
  have := c1_no_delim '\n' h
  simp [isSentenceDelim] at this

theorem c1_no_nl_fix : '\n' ∉ c1fix := by
  rw [c1fix_eq]
  intro h
  rcases List.mem_append.mp h with h' | h'
  · exact c1_no_nl_base h'
  · simp at h'

theorem c1base_ne_nil : c1base ≠ [] := by rw [c1base]; exact List.cons_ne_nil _ _

theorem c1fix_ne_nil : c1fix ≠ [] := by rw [c1fix]; exact List.cons_ne_nil _ _

theorem c1_filter_base :
    [c1base].filter (fun s => !(trim s).isEmpty) = [c1base] := by
  rw [List.filter_cons]
  rw [if_pos (by rw [c1_trim_base]; simpa using c1base_ne_nil)]
  rfl

theorem c1_loop (text : Str) :
    sentenceLoop text ['d'] [c1base] [] 0 = ([], c1fix, 1501) := by
  rw [sentenceLoop, c1_trim_base]
  rw [if_neg c1base_ne_nil]
  rw [c1_est_base]
  rw [if_neg (by simp)]
  rw [if_neg (by simp)]
  rw [sentenceLoop]
  simp only [List.nil_append]
  rw [← c1fix_eq]

theorem c1_smc (text : Str) (hfind : (byteFind text c1fix).getD 0 = 0) :
    sentenceModeChunks text ['d'] c1base = [⟨c1fix, 1501, ['d'], 0⟩] := by
  rw [sentenceModeChunks]
  rw [splitSentenceDelims_no_delim c1base c1_no_delim]
  rw [c1_filter_base]
  rw [c1_loop]
  rw [if_neg c1fix_ne_nil]
  rw [hfind]
  rfl

theorem c1_firstPass_base :
    firstPassChunks c1base ['d'] = [⟨c1fix, 1501, ['d'], 0⟩] := by
  rw [firstPassChunks, splitParas_no_nl c1base c1_no_nl_base, c1_filter_base]
  rw [paragraphLoop, c1_trim_base, c1_est_base]
  rw [if_pos (by norm_num [TARGET_TOKENS])]
  rw [paragraphLoop]
  rw [c1_smc c1base (by
    rw [byteFind_longer c1base c1fix (by
      rw [c1base, c1fix]
      simp only [List.length_cons, List.length_append, List.length_replicate]
      norm_num)]
    rfl)]
  rfl

theorem c1_trim_fix_filter :
    [c1fix].filter (fun s => !(trim s).isEmpty) = [c1fix] := by
  rw [List.filter_cons]
  rw [if_pos (by rw [c1_trim_fix]; simpa using c1fix_ne_nil)]
  rfl

theorem c1_firstPass_fix :
    firstPassChunks c1fix ['d'] = [⟨c1fix, 1501, ['d'], 0⟩] := by
  rw [firstPassChunks, splitParas_no_nl c1fix c1_no_nl_fix, c1_trim_fix_filter]
  rw [paragraphLoop, c1_trim_fix, c1_est_fix]
  rw [if_pos (by norm_num [TARGET_TOKENS])]
  rw [paragraphLoop]
  have hsmc : sentenceModeChunks c1fix ['d'] c1fix = [⟨c1fix, 1501, ['d'], 0⟩] := by
    rw [sentenceModeChunks]
    rw [c1fix_eq, splitSentenceDelims_append_delim c1base c1_no_delim '.' (by decide) []]
    have hfilter : (c1base :: splitSentenceDelims []).filter
        (fun s => !(trim s).isEmpty) = [c1base] := by
      rw [splitSentenceDelims]
      rw [List.filter_cons, if_pos (by rw [c1_trim_base]; simpa using c1base_ne_nil)]
      rfl
    rw [hfilter, ← c1fix_eq, c1_loop]
    rw [if_neg c1fix_ne_nil]
    rw [byteFind_pref c1fix c1fix
      (List.isPrefixOf_iff_prefix.mpr (List.prefix_refl _))]
    rfl
  rw [hsmc]
  rfl

theorem c1_split_fix_none :
    ∀ fuel, split_into_chunks fuel c1fix ['d'] = none := by
  intro fuel
  induction fuel with
  | zero => rfl
  | succ n ih =>
    rw [split_into_chunks, c1_firstPass_fix, resplitWith]
    simp only [ih]
    rw [if_pos (by norm_num [TARGET_TOKENS] :
      TARGET_TOKENS * 3 <
        (⟨c1fix, 1501, ['d'], 0⟩ : TextChunk).token_count)]
    rfl

/-- Claim C1, counterexample: on the single 1500-token delimiter-free
"sentence" `c1base`, `split_into_chunks` does not terminate: the first pass
produces the oversized chunk `c1fix = c1base ++ "."`, and re-splitting
`c1fix` reproduces `c1fix` itself, so no recursion depth suffices. -/
theorem claim_c1_counterexample : ¬ SplitTerminates c1base ['d'] := by
  rintro ⟨fuel, cs, h⟩
  cases fuel with
  | zero => cases h
  | succ n =>
    rw [split_into_chunks, c1_firstPass_base, resplitWith] at h
    simp only [c1_split_fix_none n] at h
    rw [if_pos (by norm_num [TARGET_TOKENS] :
      TARGET_TOKENS * 3 <
        (⟨c1fix, 1501, ['d'], 0⟩ : TextChunk).token_count)] at h
    cases h

theorem resplitWith_of_small (f : Str → Str → Option (List TextChunk)) :
    ∀ l : List TextChunk, (∀ c ∈ l, c.token_count ≤ TARGET_TOKENS * 3) →
      resplitWith f l = some l := by
  intro l
  induction l with
  | nil => intro _; rfl
  | cons a l ih =>
    intro h
    rw [resplitWith, if_neg (by
      have := h a (List.mem_cons_self _ _)
      omega)]
    rw [ih (fun c hc => h c (List.mem_cons_of_mem _ hc))]
    rfl

/-- Claim C1, amended: the oversize re-split post-pass terminates whenever
no first-pass chunk exceeds `3 * TARGET_TOKENS` (then no re-split happens at
all); in general `split_into_chunks` need not terminate — an oversized chunk
whose re-split reproduces itself recurses forever
(see the counterexample on `c1base`). -/
theorem claim_c1_amended_termination (text doc : Str)
    (h : ∀ c ∈ firstPassChunks text doc, c.token_count ≤ TARGET_TOKENS * 3) :
    SplitTerminates text doc :=
  ⟨1, firstPassChunks text doc, by
    rw [split_into_chunks]
    exact resplitWith_of_small _ _ h⟩

theorem claim_c1_witness :
    (∀ c ∈ firstPassChunks "hello".data "doc".data,
      c.token_count ≤ TARGET_TOKENS * 3) ∧
    SplitTerminates "hello".data "doc".data :=
  ⟨by decide, claim_c1_amended_termination "hello".data "doc".data (by decide)⟩

/-! ### The start-position counterexample (claim C6) -/

/-- Document id of the counterexample. -/
def c6doc : Str := ['d']

/-- Second sentence of the counterexample input: `b` then 196 commas. -/
def c6s2 : Str := 'b' :: List.replicate 196 ','

/-- Third sentence: 1299 commas (1300 estimated tokens). -/
def c6s3 : Str := List.replicate 1299 ','

/-- The input: `a.b<196 commas>.<1299 commas>` (no whitespace at all). -/
def c6orig : Str := 'a' :: '.' :: ('b' :: (List.replicate 196 ',' ++ '.' :: List.replicate 1299 ','))

/-- The first chunk closed in sentence mode: `a. b<196 commas>.`. -/
def c6bufA : Str := 'a' :: '.' :: ' ' :: ('b' :: (List.replicate 196 ',' ++ ['.']))

/-- The 200-character overlap seed taken from `c6bufA`. -/
def c6seed : Str := '.' :: ' ' :: ('b' :: (List.replicate 196 ',' ++ ['.']))

/-- First sub-chunk of the re-split: `b<196 commas>.`. -/
def c6B1 : Str := 'b' :: (List.replicate 196 ',' ++ ['.'])

/-- Second sub-chunk of the re-split: `b<196 commas>. <1299 commas>.`. -/
def c6B2 : Str := 'b' :: (List.replicate 196 ',' ++ '.' :: ' ' :: (List.replicate 1299 ',' ++ ['.']))

/-- The oversized chunk produced by the first pass: `. b<196 commas>. <1299 commas>.`. -/
def c6CH : Str := '.' :: ' ' :: c6B2

theorem wcAux_true_all_nonws :
    ∀ s : Str, (∀ c ∈ s, rustIsWhitespace c = false) → wcAux true s = 0 := by
  intro s
  induction s with
  | nil => intro _; rfl
  | cons c cs ih =>
    intro h
    rw [wcAux, if_neg (by simp [h c (List.mem_cons_self _ _)])]
    simp [ih (fun x hx => h x (List.mem_cons_of_mem _ hx))]

theorem wordCount_replicate_succ (n : Nat) (ch : Char)
    (h : rustIsWhitespace ch = false) :
    wcAux false (List.replicate (n + 1) ch) = 1 := by
  rw [List.replicate_succ, wcAux, if_neg (by simp [h]),
    wcAux_true_replicate n ch h]
  simp

theorem headNotWs_replicate_succ (n : Nat) (ch : Char)
    (h : rustIsWhitespace ch = false) :
    headNotWs (List.replicate (n + 1) ch) = true := by
  rw [List.replicate_succ]
  simp [headNotWs, h]

theorem headNotWs_reverse_append_rep (x : Str) (n : Nat) (ch : Char)
    (h : rustIsWhitespace ch = false) :
    headNotWs (x ++ List.replicate (n + 1) ch).reverse = true := by
  rw [List.replicate_succ', ← List.append_assoc, headNotWs_reverse_concat, h]
  rfl

theorem c6_est_s2 : estimate_token_count c6s2 = 197 := by
  rw [c6s2, estimate_token_count, wordCount, wcAux, if_neg (by decide),
    wcAux_true_replicate 196 ',' (by decide), punctCount, List.countP_cons,
    List.countP_replicate]
  simp only [if_pos (by decide : isAsciiPunctuation ',' = true),
    (by decide : isAsciiPunctuation 'b' = false)]
  norm_num

theorem c6_est_s3 : estimate_token_count c6s3 = 1300 := by
  rw [c6s3, estimate_token_count, wordCount,
    show (1299 : Nat) = 1298 + 1 by norm_num,
    wordCount_replicate_succ 1298 ',' (by decide), punctCount,
    List.countP_replicate]
  rw [if_pos (by decide : isAsciiPunctuation ',' = true)]

theorem c6orig_chars : ∀ c ∈ c6orig, c = 'a' ∨ c = '.' ∨ c = 'b' ∨ c = ',' := by
  intro c hc
  rw [c6orig] at hc
  simp only [List.mem_cons, List.mem_append, List.mem_replicate] at hc
  tauto

theorem c6orig_nonws : ∀ c ∈ c6orig, rustIsWhitespace c = false := by
  intro c hc
  rcases c6orig_chars c hc with rfl | rfl | rfl | rfl <;> decide

theorem wordCount_all_nonws (s : Str)
    (h : ∀ c ∈ s, rustIsWhitespace c = false) (hne : s ≠ []) :
    wordCount s = 1 := by
  cases s with
  | nil => exact absurd rfl hne
  | cons c cs =>
    rw [wordCount, wcAux, if_neg (by simp [h c (List.mem_cons_self _ _)]),
      wcAux_true_all_nonws cs (fun x hx => h x (List.mem_cons_of_mem _ hx))]
    simp

theorem c6_est_orig : estimate_token_count c6orig = 1498 := by
  rw [estimate_token_count,
    wordCount_all_nonws c6orig c6orig_nonws (by rw [c6orig]; exact List.cons_ne_nil _ _)]
  rw [c6orig, punctCount]
  simp only [List.countP_cons, List.countP_append, List.countP_replicate]
  simp only [if_pos (by decide : isAsciiPunctuation ',' = true),
    (by decide : isAsciiPunctuation 'a' = false),
    (by decide : isAsciiPunctuation 'b' = false),
    (by decide : isAsciiPunctuation '.' = true)]
  norm_num

set_option maxRecDepth 1000000 in
theorem c6_small_trims :
    trim ['a'] = ['a'] ∧ trim c6s2 = c6s2 ∧ trim c6seed = c6seed ∧
    trim c6B1 = c6B1 := by decide

set_option maxRecDepth 1000000 in
theorem c6_overlaps :
    overlapSuffix c6bufA = c6seed ∧ overlapSuffix c6B1 = c6B1 := by decide

set_option maxRecDepth 1000000 in
theorem c6_small_ests :
    estimate_token_count ['a'] = 1 ∧ estimate_token_count c6seed = 200 ∧
    estimate_token_count c6B1 = 198 := by decide

set_option maxRecDepth 1000000 in
theorem c6_find_B1 : byteFind c6CH c6B1 = some 2 := by decide

set_option maxRecDepth 1000000 in
theorem c6_find_B2 : byteFind c6CH c6B2 = some 2 := by decide

set_option maxRecDepth 1000000 in
theorem c6_space_not_mem_orig : ' ' ∉ c6orig := by decide

set_option maxRecDepth 1000000 in
theorem c6_space_mem_bufA : ' ' ∈ c6bufA := by decide

set_option maxRecDepth 1000000 in
theorem c6_space_mem_CH : ' ' ∈ c6CH := by decide

set_option maxRecDepth 1000000 in
theorem c6_space_mem_B2 : ' ' ∈ c6B2 := by decide

set_option maxRecDepth 1000000 in
theorem c6_no_nl_orig : '\n' ∉ c6orig := by decide

set_option maxRecDepth 1000000 in
theorem c6_no_nl_CH : '\n' ∉ c6CH := by decide

set_option maxRecDepth 1000000 in
theorem c6_no_delim_a : ∀ c ∈ (['a'] : Str), isSentenceDelim c = false := by decide

set_option maxRecDepth 1000000 in
theorem c6_no_delim_s2 : ∀ c ∈ c6s2, isSentenceDelim c = false := by decide

theorem c6_no_delim_s3 : ∀ c ∈ c6s3, isSentenceDelim c = false := by
  intro c hc
  rw [c6s3] at hc
  rw [List.eq_of_mem_replicate hc]
  decide

theorem c6_find_bufA : byteFind c6orig c6bufA = none :=
  byteFind_none_of_mem_not_mem _ _ ' ' c6_space_mem_bufA c6_space_not_mem_orig

theorem c6_find_CH : byteFind c6orig c6CH = none :=
  byteFind_none_of_mem_not_mem _ _ ' ' c6_space_mem_CH c6_space_not_mem_orig

theorem c6_find_B2_orig : byteFind c6orig c6B2 = none :=
  byteFind_none_of_mem_not_mem _ _ ' ' c6_space_mem_B2 c6_space_not_mem_orig

theorem c6_trim_s3 : trim c6s3 = c6s3 := by
  apply trim_eq_self
  · rw [c6s3, show (1299 : Nat) = 1298 + 1 by norm_num]
    exact headNotWs_replicate_succ 1298 ',' (by decide)
  · rw [c6s3, show (1299 : Nat) = 1298 + 1 by norm_num]
    have := headNotWs_reverse_append_rep [] 1298 ',' (by decide)
    rwa [List.nil_append] at this

theorem c6orig_decomp :
    c6orig = ('a' :: '.' :: 'b' :: (List.replicate 196 ',' ++ ['.'])) ++
      List.replicate 1299 ',' := by
  rw [c6orig]
  simp only [List.cons_append, List.append_assoc, List.singleton_append,
    List.nil_append]

theorem c6_trim_orig : trim c6orig = c6orig := by
  apply trim_eq_self
  · rw [c6orig]; decide
  · rw [c6orig_decomp, show (1299 : Nat) = 1298 + 1 by norm_num]
    exact headNotWs_reverse_append_rep _ 1298 ',' (by decide)

theorem c6CH_decomp :
    c6CH = ('.' :: ' ' :: 'b' :: (List.replicate 196 ',' ++
      '.' :: ' ' :: List.replicate 1299 ',')) ++ ['.'] := by
  rw [c6CH, c6B2]
  simp only [List.cons_append, List.append_assoc, List.singleton_append]

theorem c6_trim_CH : trim c6CH = c6CH := by
  apply trim_eq_self
  · rw [c6CH]; decide
  · rw [c6CH_decomp, headNotWs_reverse_concat]
    decide

theorem c6B2_eq :
    c6B2 = c6B1 ++ ' ' :: (List.replicate 1299 ',' ++ ['.']) := by
  rw [c6B2, c6B1]
  simp only [List.cons_append, List.append_assoc, List.singleton_append,
    List.nil_append]

theorem c6_est_rep_dot :
    estimate_token_count (List.replicate 1299 ',' ++ ['.']) = 1301 := by
  rw [estimate_token_count, wordCount_all_nonws _ ?h ?hne, punctCount,
    List.countP_append, List.countP_replicate]
  case h =>
    intro c hc
    rcases List.mem_append.mp hc with hc' | hc'
    · rw [List.eq_of_mem_replicate hc']; decide
    · rw [List.mem_singleton.mp hc']; decide
  case hne =>
    rw [show (1299 : Nat) = 1298 + 1 by norm_num, List.replicate_succ]
    exact List.cons_ne_nil _ _
  rw [if_pos (by decide : isAsciiPunctuation ',' = true),
    (by decide : List.countP isAsciiPunctuation ['.'] = 1)]

theorem c6_est_B2 : estimate_token_count c6B2 = 1499 := by
  rw [c6B2_eq, estimate_append_ws _ _ ' ' (by decide) (by decide),
    c6_est_rep_dot, c6_small_ests.2.2]

theorem c6_est_CH : estimate_token_count c6CH = 1501 := by
  have : c6CH = ['.'] ++ ' ' :: c6B2 := rfl
  rw [this, estimate_append_ws _ _ ' ' (by decide) (by decide), c6_est_B2]
  decide

theorem trim_cons_ws (c : Char) (x : Str) (h : rustIsWhitespace c = true) :
    trim (c :: x) = trim x := by
  rw [trim, trim, trimLeft, trimLeft, List.dropWhile_cons, if_pos h]

theorem c6_trim_sp_s2 : trim (' ' :: c6s2) = c6s2 := by
  rw [trim_cons_ws _ _ (by decide), c6_small_trims.2.1]

theorem c6_trim_sp_s3 : trim (' ' :: c6s3) = c6s3 := by
  rw [trim_cons_ws _ _ (by decide), c6_trim_s3]

theorem c6s2_ne_nil : c6s2 ≠ [] := by rw [c6s2]; exact List.cons_ne_nil _ _

theorem c6s3_ne_nil : c6s3 ≠ [] := by
  rw [c6s3, show (1299 : Nat) = 1298 + 1 by norm_num, List.replicate_succ]
  exact List.cons_ne_nil _ _

theorem c6bufA_ne_nil : c6bufA ≠ [] := by rw [c6bufA]; exact List.cons_ne_nil _ _

theorem c6seed_ne_nil : c6seed ≠ [] := by rw [c6seed]; exact List.cons_ne_nil _ _

theorem c6B1_ne_nil : c6B1 ≠ [] := by rw [c6B1]; exact List.cons_ne_nil _ _

theorem c6B2_ne_nil : c6B2 ≠ [] := by rw [c6B2]; exact List.cons_ne_nil _ _

theorem c6_bufA_build : ((['a', '.'] : Str) ++ [' ']) ++ c6s2 ++ ['.'] = c6bufA := by
  rw [c6bufA, c6s2]
  simp only [List.cons_append, List.append_assoc, List.singleton_append,
    List.nil_append]

theorem c6_CH_build : (c6seed ++ [' ']) ++ c6s3 ++ ['.'] = c6CH := by
  rw [c6seed, c6s3, c6CH, c6B2]
  simp only [List.cons_append, List.append_assoc, List.singleton_append,
    List.nil_append]

theorem c6_B1_build : (([] : Str)) ++ c6s2 ++ ['.'] = c6B1 := by
  rw [c6s2, c6B1]
  simp only [List.cons_append, List.append_assoc, List.singleton_append,
    List.nil_append]

theorem c6_B2_build : (c6B1 ++ [' ']) ++ c6s3 ++ ['.'] = c6B2 := by
  rw [c6B1, c6s3, c6B2]
  simp only [List.cons_append, List.append_assoc, List.singleton_append,
    List.nil_append]

theorem c6_loop1_step3 :
    sentenceLoop c6orig c6doc [c6s3] c6bufA 200 =
      ([⟨c6bufA, 200, c6doc, 0⟩], c6CH, 1501) := by
  rw [sentenceLoop, c6_trim_s3]
  dsimp only
  rw [if_neg c6s3_ne_nil, c6_est_s3]
  rw [if_pos ⟨by norm_num [TARGET_TOKENS], c6bufA_ne_nil⟩]
  rw [c6_overlaps.1, c6_small_trims.2.2.1]
  rw [c6_small_ests.2.1]
  rw [if_pos c6seed_ne_nil]
  rw [c6_CH_build]
  rw [sentenceLoop]
  dsimp only
  rw [c6_find_bufA]
  norm_num

theorem c6_loop1 :
    sentenceLoop c6orig c6doc [['a'], c6s2, c6s3] [] 0 =
      ([⟨c6bufA, 200, c6doc, 0⟩], c6CH, 1501) := by
  rw [sentenceLoop, c6_small_trims.1]
  dsimp only
  rw [if_neg (by simp : ¬(['a'] : Str) = []), c6_small_ests.1]
  rw [if_neg (by norm_num [TARGET_TOKENS])]
  rw [if_neg (by simp : ¬(([] : Str) ≠ []))]
  rw [show (([] : Str)) ++ ['a'] ++ ['.'] = ['a', '.'] from rfl]
  rw [sentenceLoop, c6_small_trims.2.1]
  dsimp only
  rw [if_neg c6s2_ne_nil, c6_est_s2]
  rw [if_neg (by norm_num [TARGET_TOKENS])]
  rw [if_pos (by simp : (['a', '.'] : Str) ≠ [])]
  rw [c6_bufA_build]
  norm_num
  exact c6_loop1_step3

theorem c6_no_delim_sp_s2 : ∀ c ∈ ' ' :: c6s2, isSentenceDelim c = false := by
  intro c hc
  rcases List.mem_cons.mp hc with rfl | hc'
  · decide
  · exact c6_no_delim_s2 c hc'

theorem c6_no_delim_sp_s3 : ∀ c ∈ ' ' :: c6s3, isSentenceDelim c = false := by
  intro c hc
  rcases List.mem_cons.mp hc with rfl | hc'
  · decide
  · exact c6_no_delim_s3 c hc'

theorem c6_ssd_orig : splitSentenceDelims c6orig = [['a'], c6s2, c6s3] := by
  have hdec : c6orig = ['a'] ++ '.' :: (c6s2 ++ '.' :: c6s3) := rfl
  rw [hdec,
    splitSentenceDelims_append_delim ['a'] c6_no_delim_a '.' (by decide) _,
    splitSentenceDelims_append_delim c6s2 c6_no_delim_s2 '.' (by decide) _,
    splitSentenceDelims_no_delim c6s3 c6_no_delim_s3]

theorem c6_filter1 :
    ([['a'], c6s2, c6s3] : List Str).filter (fun s => !(trim s).isEmpty) =
      [['a'], c6s2, c6s3] := by
  rw [List.filter_cons, if_pos (by rw [c6_small_trims.1]; rfl)]
  rw [List.filter_cons, if_pos (by
    rw [c6_small_trims.2.1, c6s2]; rfl)]
  rw [List.filter_cons, if_pos (by
    rw [c6_trim_s3, c6s3, show (1299 : Nat) = 1298 + 1 by norm_num,
      List.replicate_succ]; rfl)]
  rfl

theorem c6_smc1 :
    sentenceModeChunks c6orig c6doc c6orig =
      [⟨c6bufA, 200, c6doc, 0⟩, ⟨c6CH, 1501, c6doc, 0⟩] := by
  rw [sentenceModeChunks, c6_ssd_orig, c6_filter1, c6_loop1]
  rw [if_neg (by rw [c6CH]; exact List.cons_ne_nil _ _)]
  rw [c6_find_CH]
  rfl

theorem c6_filter_orig :
    ([c6orig] : List Str).filter (fun s => !(trim s).isEmpty) = [c6orig] := by
  rw [List.filter_cons, if_pos (by rw [c6_trim_orig, c6orig]; rfl)]
  rfl

theorem c6_firstPass_orig :
    firstPassChunks c6orig c6doc =
      [⟨c6bufA, 200, c6doc, 0⟩, ⟨c6CH, 1501, c6doc, 0⟩] := by
  rw [firstPassChunks, splitParas_no_nl c6orig c6_no_nl_orig, c6_filter_orig]
  rw [paragraphLoop, c6_trim_orig, c6_est_orig]
  rw [if_pos (by norm_num [TARGET_TOKENS])]
  rw [paragraphLoop, c6_smc1]
  rfl

theorem c6_loop2_step2 :
    sentenceLoop c6CH c6doc [' ' :: c6s3] c6B1 198 =
      ([⟨c6B1, 198, c6doc, 2⟩], c6B2, 1499) := by
  rw [sentenceLoop, c6_trim_sp_s3]
  dsimp only
  rw [if_neg c6s3_ne_nil, c6_est_s3]
  rw [if_pos ⟨by norm_num [TARGET_TOKENS], c6B1_ne_nil⟩]
  rw [c6_overlaps.2, c6_small_trims.2.2.2]
  rw [c6_small_ests.2.2]
  rw [if_pos c6B1_ne_nil]
  rw [c6_B2_build]
  rw [sentenceLoop]
  dsimp only
  rw [c6_find_B1]
  norm_num

theorem c6_loop2 :
    sentenceLoop c6CH c6doc [' ' :: c6s2, ' ' :: c6s3] [] 0 =
      ([⟨c6B1, 198, c6doc, 2⟩], c6B2, 1499) := by
  rw [sentenceLoop, c6_trim_sp_s2]
  dsimp only
  rw [if_neg c6s2_ne_nil, c6_est_s2]
  rw [if_neg (by norm_num [TARGET_TOKENS])]
  rw [if_neg (by simp : ¬(([] : Str) ≠ []))]
  rw [c6_B1_build]
  norm_num
  exact c6_loop2_step2

theorem c6_ssd_CH :
    splitSentenceDelims c6CH = [[], ' ' :: c6s2, ' ' :: c6s3, []] := by
  have hdec : c6CH = ([] : Str) ++ '.' ::
      ((' ' :: c6s2) ++ '.' :: ((' ' :: c6s3) ++ '.' :: ([] : Str))) := rfl
  rw [hdec,
    splitSentenceDelims_append_delim [] (by intro c hc; cases hc) '.' (by decide) _,
    splitSentenceDelims_append_delim (' ' :: c6s2) c6_no_delim_sp_s2 '.' (by decide) _,
    splitSentenceDelims_append_delim (' ' :: c6s3) c6_no_delim_sp_s3 '.' (by decide) _]
  rfl

theorem c6_filter2 :
    ([[], ' ' :: c6s2, ' ' :: c6s3, []] : List Str).filter
      (fun s => !(trim s).isEmpty) = [' ' :: c6s2, ' ' :: c6s3] := by
  rw [List.filter_cons, if_neg (by decide)]
  rw [List.filter_cons, if_pos (by rw [c6_trim_sp_s2, c6s2]; rfl)]
  rw [List.filter_cons, if_pos (by
    rw [c6_trim_sp_s3, c6s3, show (1299 : Nat) = 1298 + 1 by norm_num,
      List.replicate_succ]; rfl)]
  rw [List.filter_cons, if_neg (by decide)]
  rfl

theorem c6_smc2 :
    sentenceModeChunks c6CH c6doc c6CH =
      [⟨c6B1, 198, c6doc, 2⟩, ⟨c6B2, 1499, c6doc, 2⟩] := by
  rw [sentenceModeChunks, c6_ssd_CH, c6_filter2, c6_loop2]
  rw [if_neg c6B2_ne_nil]
  rw [c6_find_B2]
  rfl

theorem c6_filter_CH :
    ([c6CH] : List Str).filter (fun s => !(trim s).isEmpty) = [c6CH] := by
  rw [List.filter_cons, if_pos (by rw [c6_trim_CH, c6CH]; rfl)]
  rfl

theorem c6_firstPass_CH :
    firstPassChunks c6CH c6doc =
      [⟨c6B1, 198, c6doc, 2⟩, ⟨c6B2, 1499, c6doc, 2⟩] := by
  rw [firstPassChunks, splitParas_no_nl c6CH c6_no_nl_CH, c6_filter_CH]
  rw [paragraphLoop, c6_trim_CH, c6_est_CH]
  rw [if_pos (by norm_num [TARGET_TOKENS])]
  rw [paragraphLoop, c6_smc2]
  rfl

theorem c6_split1_CH :
    split_into_chunks 1 c6CH c6doc =
      some [⟨c6B1, 198, c6doc, 2⟩, ⟨c6B2, 1499, c6doc, 2⟩] := by
  rw [split_into_chunks, c6_firstPass_CH]
  apply resplitWith_of_small
  intro c hc
  rcases List.mem_cons.mp hc with rfl | hc'
  · norm_num [TARGET_TOKENS]
  · rcases List.mem_cons.mp hc' with rfl | hc''
    · norm_num [TARGET_TOKENS]
    · cases hc''

theorem c6_split2 :
    split_into_chunks 2 c6orig c6doc =
      some [⟨c6bufA, 200, c6doc, 0⟩, ⟨c6B1, 198, c6doc, 2⟩,
        ⟨c6B2, 1499, c6doc, 2⟩] := by
  rw [split_into_chunks, c6_firstPass_orig]
  rw [resplitWith]
  dsimp only
  rw [if_neg (by norm_num [TARGET_TOKENS])]
  rw [resplitWith]
  dsimp only
  rw [if_pos (by norm_num [TARGET_TOKENS])]
  rw [c6_split1_CH]
  rw [resplitWith]
  simp [restamp]

/-- Claim C6, counterexample: on the input `c6orig` (no whitespace at all),
the splitter terminates after one re-split, and the re-split sub-chunk
`c6B2` carries `start_position = 2` — its offset inside the oversized
chunk's text `c6CH` — even though its text does not occur in the original
top-level input at all (the claim demands `0` in that case). -/
theorem claim_c6_counterexample :
    ∃ cs, split_into_chunks 2 c6orig c6doc = some cs ∧
      ∃ c ∈ cs, ¬(c.start_position = (byteFind c6orig c.text).getD 0) := by
  refine ⟨_, c6_split2,
    ⟨⟨c6B2, 1499, c6doc, 2⟩,
      List.mem_cons_of_mem _ (List.mem_cons_of_mem _ (List.mem_cons_self _ _)), ?_⟩⟩
  rw [c6_find_B2_orig]
  simp
